import Mathlib

/-!
Verification of the HYROX results scraping pipeline (fetch_hyrox.py) and the
downstream dashboard loader (dashboard.py), shallowly embedded in Lean.

Text is modelled as `String` (lists of characters underneath); Python's
`str.upper`, `str.lower`, `str.strip`, `str.startswith` and substring tests
are given explicit executable models on `List Char`.
-/

/-- Model of Python `needle in hay` restricted to a prefix test:
`startswith p s` is `s.startswith(p)` read on character lists. -/
def startswith : List Char → List Char → Bool
  | [], _ => true
  | _ :: _, [] => false
  | a :: ps, b :: ss => a == b && startswith ps ss

/-- Model of Python substring containment `needle in hay` on character lists. -/
def containsSub (needle : List Char) : List Char → Bool
  | [] => needle.isEmpty
  | c :: rest => startswith needle (c :: rest) || containsSub needle rest

/-- Model of Python `str.upper()` (ASCII case mapping, as used on event codes). -/
def pyUpper (s : String) : String := ⟨s.data.map Char.toUpper⟩

/-- Model of Python `str.lower()` (ASCII case mapping). -/
def pyLower (s : String) : String := ⟨s.data.map Char.toLower⟩

/-- Constant `PER_PAGE` from fetch_hyrox.py: the site shows 25 results per page. -/
def PER_PAGE : Nat := 25

/-- Constant `MAX_PAGES` from fetch_hyrox.py: at most 4 pages per event/sex. -/
def MAX_PAGES : Nat := 4

/-- Table `CATEGORY_PREFIXES` from fetch_hyrox.py, in source (insertion) order. -/
def CATEGORY_PREFIXES : List (String × String) :=
  [("HPRO_", "HYROX PRO"),
   ("HDP_",  "HYROX PRO DOUBLES"),
   ("HD_",   "HYROX DOUBLES"),
   ("HMR_",  "HYROX TEAM RELAY"),
   ("HA_",   "HYROX ADAPTIVE"),
   ("HY1_",  "HYROX YOUNGSTARS"),
   ("HG_",   "HYROX GORUCK"),
   ("HE_",   "HYROX ELITE"),
   ("WCHE",  "WCHE ELITE"),
   ("H_",    "HYROX")]

/-- Function `category_from_code` from fetch_hyrox.py: first entry of
`CATEGORY_PREFIXES` whose key is a prefix of `code.upper()`, else "HYROX". -/
def category_from_code (code : String) : String :=
  match CATEGORY_PREFIXES.find? (fun pr => startswith pr.1.data (pyUpper code).data) with
  | some pr => pr.2
  | none => "HYROX"

theorem startswith_iff (p s : List Char) : startswith p s = true ↔ p <+: s := by
  induction p generalizing s with
  | nil => simp [startswith]
  | cons a ps ih =>
    cases s with
    | nil => simp [startswith]
    | cons b ss =>
      rw [startswith, Bool.and_eq_true, beq_iff_eq, ih, List.cons_prefix_cons]

/-- One athlete record as produced by `parse_result_rows`. -/
structure Athlete where
  rank : String
  athlete : String
  nationality : String
  age_group : String
  total_time : String
deriving DecidableEq

/-- One result-row element of the HTML list, after the mobile-only label
elements (`visible-xs`/`visible-sm`) have been decomposed: each field holds
the stripped text of the first matching sub-element, or `none` when the
sub-element is missing. -/
structure HtmlRow where
  rank_el : Option String
  name_el : Option String
  nat_el : Option String
  age_el : Option String
  time_el : Option String
deriving DecidableEq

/-- A parsed results page: the text of the `list-info__text str_num` summary
element (`none` when that element is absent) and the result-row elements. -/
structure Soup where
  count_text : Option String
  result_rows : List HtmlRow
deriving DecidableEq

/-- The body of `parse_result_rows`'s loop for a single row. -/
def parseRow (row : HtmlRow) : Option Athlete :=
  let rank := row.rank_el.getD ""
  let name := row.name_el.getD ""
  let nat := row.nat_el.getD ""
  let age := row.age_el.getD ""
  let tot := row.time_el.getD ""
  if pyLower rank = "rank" ∨ pyLower rank = "" then none
  else if name = "" then none
  else some ⟨rank, name, nat, age, tot⟩

/-- Function `parse_result_rows` from fetch_hyrox.py over the row elements of a page. -/
def parse_result_rows (rows : List HtmlRow) : List Athlete :=
  rows.filterMap parseRow

/-- ASCII decimal digit test (the `\d` of the source's regexes). -/
def isDigitChar (c : Char) : Bool := '0' ≤ c && c ≤ '9'

/-- Numeric value of a digit string (Python `int` on a digit string). -/
def digitsVal (l : List Char) : Nat :=
  l.foldl (fun a c => a * 10 + (c.toNat - 48)) 0

/-- The first match of `\d[\d,]*` in a character list (a `re.search`):
skip to the first digit, then take the maximal run of digits and commas. -/
def firstNumRun (l : List Char) : Option (List Char) :=
  match l.dropWhile (fun c => !isDigitChar c) with
  | [] => none
  | c :: cs => some (c :: cs.takeWhile (fun c => isDigitChar c || c == ','))

/-- Function `parse_total_count` from fetch_hyrox.py: the leading integer (with
thousands separators removed) of the summary element's text, else 0. -/
def parse_total_count (soup : Soup) : Nat :=
  match soup.count_text with
  | some txt =>
    match firstNumRun txt.data with
    | some run => digitsVal (run.filter (fun c => !(c == ',')))
    | none => 0
  | none => 0

/-- One line of the output CSV, with the columns of `FIELDNAMES`. -/
structure Row where
  season : String
  event_main_group : String
  event_code : String
  event_label : String
  category : String
  gender : String
  rank : String
  athlete : String
  nationality : String
  age_group : String
  total_time : String
deriving DecidableEq

/-- The unit of resumable work: the pair (event code, gender). -/
abbrev CollectionKey := String × String

/-- Function `load_done_keys` from fetch_hyrox.py: the (event_code, gender) pairs of
all rows already present in the output store. -/
def load_done_keys (store : List Row) : List CollectionKey :=
  store.map (fun r => (r.event_code, r.gender))

/-- The `writer.writerow` dict of `scrape_combo`: one athlete annotated with
the season/group/code/label/category/gender of the current combination. -/
def mkRow (season event_main_group event_code event_label category gender : String)
    (a : Athlete) : Row :=
  ⟨season, event_main_group, event_code, event_label, category, gender,
   a.rank, a.athlete, a.nationality, a.age_group, a.total_time⟩

/-- Quantity `total_pages` as computed in `scrape_combo`. -/
def total_pages_of (total_count : Nat) : Nat :=
  (total_count + PER_PAGE - 1) / PER_PAGE

/-- Quantity `fetch_pages` as computed in `scrape_combo`. -/
def fetch_pages_of (total_count : Nat) : Nat :=
  min (total_pages_of total_count) MAX_PAGES

/-- Outcome of one `scrape_combo` call: the in-memory done-set, the output
store, and the page numbers for which a network request was issued. -/
structure ComboResult where
  done_keys : List CollectionKey
  store : List Row
  requests : List Nat
deriving DecidableEq

/-- The pagination loop of `scrape_combo` for the pages after the first:
fetch each page number in turn, appending its parsed rows; a fetch error
breaks the loop. Returns the appended rows and the requested page numbers. -/
def fetchPagesLoop (fetch : Nat → Except String Soup) (mk : Athlete → Row) :
    List Nat → List Row × List Nat
  | [] => ([], [])
  | n :: rest =>
    match fetch n with
    | .error _ => ([], [n])
    | .ok soup =>
      let (rows, reqs) := fetchPagesLoop fetch mk rest
      ((parse_result_rows soup.result_rows).map mk ++ rows, n :: reqs)

/-- The rows contributed by a list of successfully fetched pages (used to
state what `fetchPagesLoop` appended before an error broke it off). -/
def pageRows (fetch : Nat → Except String Soup) (mk : Athlete → Row) :
    List Nat → List Row
  | [] => []
  | n :: rest =>
    (match fetch n with
     | .ok soup => (parse_result_rows soup.result_rows).map mk
     | .error _ => []) ++ pageRows fetch mk rest

/-- Function `scrape_combo` from fetch_hyrox.py, as a pure function of a fetch
oracle (`fetch n` is `get_results_page` for page `n`: an error models a
raised exception). The done-set and the CSV store are passed and returned
explicitly. -/
def scrape_combo (fetch : Nat → Except String Soup)
    (season event_main_group event_code event_label category gender : String)
    (done_keys : List CollectionKey) (store : List Row) : ComboResult :=
  let key : CollectionKey := (event_code, gender)
  if key ∈ done_keys then ⟨done_keys, store, []⟩
  else
    match fetch 1 with
    | .error _ => ⟨done_keys, store, [1]⟩
    | .ok soup =>
      let total_count := parse_total_count soup
      if total_count = 0 then ⟨done_keys, store, [1]⟩
      else
        let fetch_pages := fetch_pages_of total_count
        let mk := mkRow season event_main_group event_code event_label category gender
        let rows1 := (parse_result_rows soup.result_rows).map mk
        let (rowsRest, reqsRest) := fetchPagesLoop fetch mk (List.range' 2 (fetch_pages - 1))
        ⟨key :: done_keys, store ++ rows1 ++ rowsRest, 1 :: reqsRest⟩

/-- Python's whitespace characters, as removed by `str.strip()`. -/
def pyWhitespace : List Char := [' ', '\t', '\n', '\x0b', '\x0c', '\r']

/-- Model of Python `str.strip()`. -/
def pyStrip (s : String) : String :=
  ⟨((s.data.dropWhile (fun c => pyWhitespace.contains c)).reverse.dropWhile
      (fun c => pyWhitespace.contains c)).reverse⟩

/-- Function `to_seconds` from dashboard.py's `load_data`: full-match the stripped
string against `(\d+):(\d{2}):(\d{2})` (H:MM:SS) and then `(\d+):(\d{2})`
(M:SS); an unmatched string gives `none` (Python `None`). Splitting on the
colon makes the two regex cases the three-part and two-part cases. -/
def to_seconds (t : String) : Option Nat :=
  match (pyStrip t).data.splitOn ':' with
  | [h, m, s] =>
    if !h.isEmpty && h.all isDigitChar
        && m.length == 2 && m.all isDigitChar
        && s.length == 2 && s.all isDigitChar then
      some (digitsVal h * 3600 + digitsVal m * 60 + digitsVal s)
    else none
  | [m, s] =>
    if !m.isEmpty && m.all isDigitChar
        && s.length == 2 && s.all isDigitChar then
      some (digitsVal m * 60 + digitsVal s)
    else none
  | _ => none

/-- Function `load_data` from dashboard.py, restricted to what the embedding models:
annotate each CSV row with its parsed `total_seconds` and drop the rows
whose total-time string does not parse (`dropna(subset=["total_seconds"])`). -/
def load_data (rows : List Row) : List (Row × Nat) :=
  rows.filterMap (fun r => (to_seconds r.total_time).map (fun s => (r, s)))

/-- A JSON value, for the decoded bodies of the discovery endpoint. -/
inductive Json where
  | null : Json
  | bool (b : Bool) : Json
  | num (n : Int) : Json
  | str (s : String) : Json
  | arr (items : List Json) : Json
  | obj (fields : List (String × Json)) : Json

/-- Python `d[k]` read defensively: `some` when `d` is an object holding
key `k`, `none` otherwise (the `KeyError`/`TypeError` cases). -/
def Json.lookupKey : Json → String → Option Json
  | .obj fields, k => fields.lookup k
  | _, _ => none

/-- Navigation along a nested key path, `none` as soon as a step fails. -/
def getPath (j : Json) (path : List String) : Option Json :=
  path.foldl (fun acc k => acc.bind (fun x => x.lookupKey k)) (some j)

/-- The option-building loop of `get_event_codes`: keep the items whose
`"v"` entry is a list of length at least 2, pairing its first two values. -/
def extract_options (ev_data : Json) : List (Json × Json) :=
  match ev_data with
  | .arr items =>
    items.filterMap (fun item =>
      match item.lookupKey "v" with
      | some (.arr (v0 :: v1 :: _)) => some (v0, v1)
      | _ => none)
  | _ => []

/-- Function `get_event_codes` from fetch_hyrox.py, as a function of the decoded
response body (`none` models a body that fails to decode as JSON): try
`branches.lists.fields.event.data`, fall back to top-level `event.data`,
else return the empty list. -/
def get_event_codes (body : Option Json) : List (Json × Json) :=
  match body with
  | none => []
  | some data =>
    let ev_data :=
      match getPath data ["branches", "lists", "fields", "event", "data"] with
      | some d => some d
      | none => getPath data ["event", "data"]
    match ev_data with
    | some d => extract_options d
    | none => []

/-- A (value, text) pair for one event code, as consumed by `main`. -/
structure EventOption where
  value : String
  text : String
deriving DecidableEq

/-- The OVERALL test of `main`: `"OVERALL" in o["value"].upper()`. -/
def hasOverall (code : String) : Bool :=
  containsSub "OVERALL".data (pyUpper code).data

/-- The OVERALL preference of `main`: keep the options whose code contains
OVERALL; when there are none, keep the others (`overall if overall else
non_overall`). -/
def select_use_opts (event_opts : List EventOption) : List EventOption :=
  let overall := event_opts.filter (fun o => hasOverall o.value)
  let non_overall := event_opts.filter (fun o => !hasOverall o.value)
  if overall.isEmpty then non_overall else overall

/-- The `ONLY_OPEN` filter of `main`: keep the options classified "HYROX". -/
def filter_open (event_opts : List EventOption) : List EventOption :=
  event_opts.filter (fun o => category_from_code o.value == "HYROX")

/-! ### Helper lemmas about the category classifier -/

/-- No configured prefix is a (string) prefix of another configured entry:
the table is prefix-free, so at most one entry can match any given code. -/
theorem catPrefixes_free : ∀ p ∈ CATEGORY_PREFIXES, ∀ q ∈ CATEGORY_PREFIXES,
    p.1.data <+: q.1.data → p = q := by decide

theorem catPrefixes_at_most_one {s : List Char} {p q : String × String}
    (hp : p ∈ CATEGORY_PREFIXES) (hq : q ∈ CATEGORY_PREFIXES)
    (hps : p.1.data <+: s) (hqs : q.1.data <+: s) : p = q := by
  rcases Nat.le_total p.1.data.length q.1.data.length with h | h
  · exact catPrefixes_free p hp q hq (List.prefix_of_prefix_length_le hps hqs h)
  · exact (catPrefixes_free q hq p hp (List.prefix_of_prefix_length_le hqs hps h)).symm

theorem category_default_of_no_match (code : String)
    (h : ∀ p ∈ CATEGORY_PREFIXES, ¬ p.1.data <+: (pyUpper code).data) :
    category_from_code code = "HYROX" := by
  have hfind : CATEGORY_PREFIXES.find?
      (fun pr => startswith pr.1.data (pyUpper code).data) = none := by
    apply List.find?_eq_none.mpr
    intro a ha hsw
    exact h a ha ((startswith_iff _ _).mp hsw)
  simp [category_from_code, hfind]

theorem category_eq_of_match {code : String} {p : String × String}
    (hp : p ∈ CATEGORY_PREFIXES) (hpref : p.1.data <+: (pyUpper code).data) :
    category_from_code code = p.2 := by
  cases hfind : CATEGORY_PREFIXES.find?
      (fun pr => startswith pr.1.data (pyUpper code).data) with
  | none =>
    have := List.find?_eq_none.mp hfind p hp
    rw [startswith_iff] at this
    exact absurd hpref this
  | some pr =>
    have hmem := List.mem_of_find?_eq_some hfind
    have hmatch := List.find?_some hfind
    simp only [startswith_iff] at hmatch
    have hep : pr = p := catPrefixes_at_most_one hmem hp hmatch hpref
    subst hep
    simp [category_from_code, hfind]

/-- C3: the function `category_from_code` is a pure function; on every event code, any
configured prefix that matches the upper-cased code is of maximal length
among the matching prefixes (the longest match wins) and its label is
returned; when no configured prefix matches, the default "HYROX" is
returned. -/
theorem category_longest_match_wins (code : String) :
    (∀ p ∈ CATEGORY_PREFIXES, p.1.data <+: (pyUpper code).data →
      category_from_code code = p.2 ∧
      ∀ q ∈ CATEGORY_PREFIXES, q.1.data <+: (pyUpper code).data →
        q.1.length ≤ p.1.length) ∧
    ((∀ p ∈ CATEGORY_PREFIXES, ¬ p.1.data <+: (pyUpper code).data) →
      category_from_code code = "HYROX") := by
  refine ⟨fun p hp hpref => ⟨category_eq_of_match hp hpref, fun q hq hqpref => ?_⟩,
    category_default_of_no_match code⟩
  have : q = p := catPrefixes_at_most_one hq hp hqpref hpref
  simp [this, Nat.le_refl]

theorem category_longest_match_wins_witness :
    category_from_code "hpro_x" = "HYROX PRO" ∧ category_from_code "zzz" = "HYROX" :=
  ⟨((category_longest_match_wins "hpro_x").1 ("HPRO_", "HYROX PRO")
      (by decide) (by decide)).1,
   (category_longest_match_wins "zzz").2 (by decide)⟩

/-- C9: an event code matching no configured prefix is classified with the
fallback label "HYROX", which is exactly the label the Open filter keeps,
so such an option is retained by `filter_open` rather than excluded. -/
theorem open_filter_keeps_unmatched (opts : List EventOption) (o : EventOption)
    (ho : o ∈ opts)
    (hnm : ∀ p ∈ CATEGORY_PREFIXES, ¬ p.1.data <+: (pyUpper o.value).data) :
    category_from_code o.value = "HYROX" ∧ o ∈ filter_open opts := by
  have hcat := category_default_of_no_match o.value hnm
  exact ⟨hcat, List.mem_filter.mpr ⟨ho, by simp [hcat]⟩⟩

theorem open_filter_keeps_unmatched_witness :
    category_from_code "ZZZ" = "HYROX" ∧
      (⟨"ZZZ", "z"⟩ : EventOption) ∈ filter_open [⟨"HPRO_A", "p"⟩, ⟨"ZZZ", "z"⟩] :=
  open_filter_keeps_unmatched [⟨"HPRO_A", "p"⟩, ⟨"ZZZ", "z"⟩] ⟨"ZZZ", "z"⟩
    (by decide) (by decide)

/-- C8: when at least one option's code contains OVERALL (case-insensitively),
`select_use_opts` keeps exactly those options; when no option does, it keeps
exactly the options without OVERALL, which is the whole list. -/
theorem select_use_opts_overall (opts : List EventOption) :
    ((∃ o ∈ opts, hasOverall o.value = true) →
      select_use_opts opts = opts.filter (fun o => hasOverall o.value)) ∧
    ((∀ o ∈ opts, hasOverall o.value = false) →
      select_use_opts opts = opts.filter (fun o => !hasOverall o.value) ∧
        select_use_opts opts = opts) := by
  constructor
  · rintro ⟨o, ho, hov⟩
    have hne : (opts.filter (fun o => hasOverall o.value)).isEmpty = false := by
      rw [List.isEmpty_eq_false]
      intro hnil
      exact absurd hov (by simpa using List.filter_eq_nil_iff.mp hnil o ho)
    simp [select_use_opts, hne]
  · intro h
    have hnil : opts.filter (fun o => hasOverall o.value) = [] := by
      rw [List.filter_eq_nil_iff]
      intro a ha
      simp [h a ha]
    have hall : opts.filter (fun o => !hasOverall o.value) = opts := by
      rw [List.filter_eq_self]
      intro a ha
      simp [h a ha]
    constructor
    · simp [select_use_opts, hnil]
    · simp [select_use_opts, hnil, hall]

theorem select_use_opts_overall_witness :
    select_use_opts [⟨"H_OVERALL", "t"⟩, ⟨"H_SAT", "u"⟩]
        = List.filter (fun o => hasOverall o.value) [⟨"H_OVERALL", "t"⟩, ⟨"H_SAT", "u"⟩] ∧
      select_use_opts [⟨"H_SAT", "u"⟩, ⟨"H_SUN", "w"⟩] = [⟨"H_SAT", "u"⟩, ⟨"H_SUN", "w"⟩] :=
  ⟨(select_use_opts_overall [⟨"H_OVERALL", "t"⟩, ⟨"H_SAT", "u"⟩]).1
      ⟨⟨"H_OVERALL", "t"⟩, by decide, by decide⟩,
   ((select_use_opts_overall [⟨"H_SAT", "u"⟩, ⟨"H_SUN", "w"⟩]).2 (by decide)).2⟩

/-- C5: the downstream time parser maps "0:52:13" and "52:13" both to 3133
seconds, and a record whose total-time string parses to neither form is
dropped by `load_data`. -/
theorem to_seconds_values_and_drop :
    to_seconds "0:52:13" = some 3133 ∧ to_seconds "52:13" = some 3133 ∧
    ∀ (rows : List Row) (r : Row), to_seconds r.total_time = none →
      r ∉ (load_data rows).map Prod.fst := by
  refine ⟨by decide, by decide, fun rows r hnone hmem => ?_⟩
  rcases List.mem_map.mp hmem with ⟨x, hx, hxr⟩
  rcases List.mem_filterMap.mp hx with ⟨a, _, hfa⟩
  cases h : to_seconds a.total_time with
  | none => rw [h] at hfa; simp at hfa
  | some s =>
    rw [h] at hfa
    simp only [Option.map_some', Option.some.injEq] at hfa
    rw [← hfa] at hxr
    rw [← hxr] at hnone
    rw [h] at hnone
    exact Option.noConfusion hnone

theorem to_seconds_values_and_drop_witness :
    to_seconds "0:52:13" = some 3133 ∧
      (⟨"s", "g", "c", "l", "k", "M", "1", "A", "", "", "bad"⟩ : Row) ∉
        (load_data [⟨"s", "g", "c", "l", "k", "M", "1", "A", "", "", "bad"⟩]).map Prod.fst :=
  ⟨to_seconds_values_and_drop.1,
   to_seconds_values_and_drop.2.2 [⟨"s", "g", "c", "l", "k", "M", "1", "A", "", "", "bad"⟩]
     ⟨"s", "g", "c", "l", "k", "M", "1", "A", "", "", "bad"⟩ (by decide)⟩

theorem pyLower_eq_empty {s : String} : pyLower s = "" ↔ s = "" := by
  rw [String.ext_iff, String.ext_iff]
  show s.data.map Char.toLower = [] ↔ s.data = []
  exact List.map_eq_nil_iff

/-- C6: the parser `parse_result_rows` yields no record for a row whose rank text is
empty or (lower-cased) "rank" or whose name text is empty; any other row
yields exactly one record whose five fields are the texts of the
sub-elements, a missing sub-element (e.g. nationality) contributing the
empty string rather than failing the row. -/
theorem parse_rows_skip_and_defaults (pre post : List HtmlRow) (row : HtmlRow) :
    (pyLower (row.rank_el.getD "") = "rank" ∨ row.rank_el.getD "" = "" ∨
        row.name_el.getD "" = "" →
      parse_result_rows (pre ++ row :: post) = parse_result_rows (pre ++ post)) ∧
    (row.rank_el.getD "" ≠ "" → pyLower (row.rank_el.getD "") ≠ "rank" →
        row.name_el.getD "" ≠ "" →
      parse_result_rows (pre ++ row :: post) =
        parse_result_rows pre ++
          ⟨row.rank_el.getD "", row.name_el.getD "", row.nat_el.getD "",
            row.age_el.getD "", row.time_el.getD ""⟩ :: parse_result_rows post) := by
  constructor
  · intro h
    have hrow : parseRow row = none := by
      unfold parseRow
      rcases h with h | h | h
      · rw [if_pos (Or.inl h)]
      · rw [if_pos (Or.inr (pyLower_eq_empty.mpr h))]
      · by_cases hc : pyLower (row.rank_el.getD "") = "rank" ∨
            pyLower (row.rank_el.getD "") = ""
        · rw [if_pos hc]
        · rw [if_neg hc, if_pos h]
    simp [parse_result_rows, List.filterMap_append, List.filterMap_cons, hrow]
  · intro h1 h2 h3
    have hrow : parseRow row =
        some ⟨row.rank_el.getD "", row.name_el.getD "", row.nat_el.getD "",
          row.age_el.getD "", row.time_el.getD ""⟩ := by
      unfold parseRow
      rw [if_neg, if_neg h3]
      rintro (hc | hc)
      · exact h2 hc
      · exact h1 (pyLower_eq_empty.mp hc)
    simp [parse_result_rows, List.filterMap_append, List.filterMap_cons, hrow]

theorem parse_rows_skip_and_defaults_witness :
    parse_result_rows [⟨some "Rank", some "Name", some "Nat", none, none⟩] =
        parse_result_rows [] ∧
      parse_result_rows [⟨some "1", some "Ann Bo", none, some "30-34", some "52:13"⟩] =
        parse_result_rows [] ++ ⟨"1", "Ann Bo", "", "30-34", "52:13"⟩ :: parse_result_rows [] :=
  ⟨(parse_rows_skip_and_defaults [] [] ⟨some "Rank", some "Name", some "Nat", none, none⟩).1
      (Or.inl (by decide)),
   (parse_rows_skip_and_defaults [] []
      ⟨some "1", some "Ann Bo", none, some "30-34", some "52:13"⟩).2
      (by decide) (by decide) (by decide)⟩

/-- C7: the client `get_event_codes` reads the event list at
`branches.lists.fields.event.data` when that path is present, falls back to
the top-level `event.data` when it is not, and returns the empty list when
both shapes are absent or when the body did not decode as JSON. -/
theorem get_event_codes_shape_fallback (data : Json) :
    (∀ d, getPath data ["branches", "lists", "fields", "event", "data"] = some d →
      get_event_codes (some data) = extract_options d) ∧
    (getPath data ["branches", "lists", "fields", "event", "data"] = none →
      ∀ d, getPath data ["event", "data"] = some d →
        get_event_codes (some data) = extract_options d) ∧
    (getPath data ["branches", "lists", "fields", "event", "data"] = none →
      getPath data ["event", "data"] = none →
      get_event_codes (some data) = []) ∧
    get_event_codes none = [] := by
  refine ⟨fun d hd => ?_, fun h1 d hd => ?_, fun h1 h2 => ?_, rfl⟩
  · simp [get_event_codes, hd]
  · simp [get_event_codes, h1, hd]
  · simp [get_event_codes, h1, h2]

theorem get_event_codes_shape_fallback_witness :
    get_event_codes (some (Json.obj [("x", Json.null)])) = [] ∧ get_event_codes none = [] :=
  ⟨(get_event_codes_shape_fallback (Json.obj [("x", Json.null)])).2.2.1 rfl rfl,
   (get_event_codes_shape_fallback (Json.obj [("x", Json.null)])).2.2.2⟩

/-! ### Helper lemmas about the pagination loop of `scrape_combo` -/

theorem fetchPagesLoop_all_ok (fetch : Nat → Except String Soup) (mk : Athlete → Row) :
    ∀ (pages : List Nat), (∀ n ∈ pages, ∃ s, fetch n = Except.ok s) →
      fetchPagesLoop fetch mk pages = (pageRows fetch mk pages, pages) := by
  intro pages
  induction pages with
  | nil => intro _; rfl
  | cons n rest ih =>
    intro h
    rcases h n (List.mem_cons_self n rest) with ⟨s, hs⟩
    have ihr := ih (fun m hm => h m (List.mem_cons_of_mem n hm))
    simp only [fetchPagesLoop, pageRows, hs, ihr]

theorem fetchPagesLoop_break (fetch : Nat → Except String Soup) (mk : Athlete → Row) :
    ∀ (pre : List Nat) (j : Nat) (post : List Nat) (e : String),
      (∀ n ∈ pre, ∃ s, fetch n = Except.ok s) → fetch j = Except.error e →
      fetchPagesLoop fetch mk (pre ++ j :: post) = (pageRows fetch mk pre, pre ++ [j]) := by
  intro pre
  induction pre with
  | nil =>
    intro j post e _ hje
    simp only [List.nil_append, fetchPagesLoop, hje, pageRows]
  | cons n rest ih =>
    intro j post e h hje
    rcases h n (List.mem_cons_self n rest) with ⟨s, hs⟩
    have ihr := ih j post e (fun m hm => h m (List.mem_cons_of_mem n hm)) hje
    simp only [List.cons_append, fetchPagesLoop, pageRows, hs, List.append_eq, ihr]

/-- Running `scrape_combo` on a key not yet done, with a successful page-1 fetch and
a nonzero parsed total: the shape of the result in terms of the loop. -/
theorem scrape_combo_run (fetch : Nat → Except String Soup)
    (season emg code label category gender : String)
    (done : List CollectionKey) (store : List Row) (soup : Soup)
    (hkey : (code, gender) ∉ done) (h1 : fetch 1 = Except.ok soup)
    (h0 : parse_total_count soup ≠ 0) :
    scrape_combo fetch season emg code label category gender done store =
      ⟨(code, gender) :: done,
       store ++ (parse_result_rows soup.result_rows).map
           (mkRow season emg code label category gender) ++
         (fetchPagesLoop fetch (mkRow season emg code label category gender)
           (List.range' 2 (fetch_pages_of (parse_total_count soup) - 1))).1,
       1 :: (fetchPagesLoop fetch (mkRow season emg code label category gender)
           (List.range' 2 (fetch_pages_of (parse_total_count soup) - 1))).2⟩ := by
  simp [scrape_combo, hkey, h1, h0]

/-- C1: a (event code, gender) pair already present in the output store is
in the done-set loaded at startup, and a `scrape_combo` call for it returns
immediately: no page is requested, no row is appended, the done-set is
unchanged. -/
theorem scrape_combo_skip_done (fetch : Nat → Except String Soup)
    (season emg code label category gender : String) (store : List Row)
    (h : ∃ r ∈ store, r.event_code = code ∧ r.gender = gender) :
    (code, gender) ∈ load_done_keys store ∧
      scrape_combo fetch season emg code label category gender
          (load_done_keys store) store =
        ⟨load_done_keys store, store, []⟩ := by
  rcases h with ⟨r, hr, hc, hg⟩
  have hmem : (code, gender) ∈ load_done_keys store :=
    List.mem_map.mpr ⟨r, hr, by rw [hc, hg]⟩
  exact ⟨hmem, by simp [scrape_combo, hmem]⟩

theorem scrape_combo_skip_done_witness :
    ("H_X", "M") ∈ load_done_keys [⟨"s", "g", "H_X", "l", "HYROX", "M", "1", "A", "", "", "52:13"⟩] ∧
      scrape_combo (fun _ => Except.error "no network") "s" "g" "H_X" "l" "HYROX" "M"
          (load_done_keys [⟨"s", "g", "H_X", "l", "HYROX", "M", "1", "A", "", "", "52:13"⟩])
          [⟨"s", "g", "H_X", "l", "HYROX", "M", "1", "A", "", "", "52:13"⟩] =
        ⟨load_done_keys [⟨"s", "g", "H_X", "l", "HYROX", "M", "1", "A", "", "", "52:13"⟩],
         [⟨"s", "g", "H_X", "l", "HYROX", "M", "1", "A", "", "", "52:13"⟩], []⟩ :=
  scrape_combo_skip_done (fun _ => Except.error "no network") "s" "g" "H_X" "l" "HYROX" "M"
    [⟨"s", "g", "H_X", "l", "HYROX", "M", "1", "A", "", "", "52:13"⟩]
    ⟨⟨"s", "g", "H_X", "l", "HYROX", "M", "1", "A", "", "", "52:13"⟩, by decide, by decide⟩

/-- C10: when the page-1 fetch fails or the parsed total count is 0,
`scrape_combo` returns with the done-set and the store unchanged after the
single page-1 request, so the key is not marked done and a later run will
fetch it again. -/
theorem scrape_combo_early_return_not_done (fetch : Nat → Except String Soup)
    (season emg code label category gender : String)
    (done : List CollectionKey) (store : List Row)
    (hkey : (code, gender) ∉ done)
    (h : (∃ e, fetch 1 = Except.error e) ∨
      ∃ s, fetch 1 = Except.ok s ∧ parse_total_count s = 0) :
    scrape_combo fetch season emg code label category gender done store =
        ⟨done, store, [1]⟩ ∧
      (code, gender) ∉
        (scrape_combo fetch season emg code label category gender done store).done_keys := by
  have heq : scrape_combo fetch season emg code label category gender done store =
      ⟨done, store, [1]⟩ := by
    rcases h with ⟨e, he⟩ | ⟨s, hs, h0⟩
    · simp [scrape_combo, hkey, he]
    · simp [scrape_combo, hkey, hs, h0]
  exact ⟨heq, by rw [heq]; exact hkey⟩

theorem scrape_combo_early_return_not_done_witness :
    scrape_combo (fun _ => Except.error "timeout") "s" "g" "H_X" "l" "HYROX" "M" [] [] =
        ⟨[], [], [1]⟩ ∧
      ("H_X", "M") ∉
        (scrape_combo (fun _ => Except.error "timeout") "s" "g" "H_X" "l" "HYROX" "M"
          [] []).done_keys :=
  scrape_combo_early_return_not_done (fun _ => Except.error "timeout") "s" "g" "H_X" "l"
    "HYROX" "M" [] [] (by decide) (Or.inl ⟨"timeout", rfl⟩)

/-- C2: with page size 25, `total_pages` is the ceiling of T / 25
(characterized by its Galois property), `fetch_pages` is its minimum with
the page cap 4, and a run whose pages all fetch successfully requests
exactly `min ⌈T / 25⌉ 4` pages — never more than 4. -/
theorem pages_ceil_and_cap (T : Nat) (hT : 0 < T) :
    PER_PAGE = 25 ∧ MAX_PAGES = 4 ∧
    (∀ n : Nat, total_pages_of T ≤ n ↔ T ≤ n * PER_PAGE) ∧
    fetch_pages_of T = min (total_pages_of T) MAX_PAGES ∧
    fetch_pages_of T ≤ 4 ∧
    (∀ (fetch : Nat → Except String Soup)
      (season emg code label category gender : String)
      (done : List CollectionKey) (store : List Row) (soup : Soup),
      (code, gender) ∉ done → fetch 1 = Except.ok soup →
      parse_total_count soup = T →
      (∀ n, 2 ≤ n → n ≤ fetch_pages_of T → ∃ s, fetch n = Except.ok s) →
      (scrape_combo fetch season emg code label category gender done store).requests =
          List.range' 1 (fetch_pages_of T) ∧
        (scrape_combo fetch season emg code label category gender
          done store).requests.length = fetch_pages_of T) := by
  have hfp1 : 1 ≤ fetch_pages_of T := by
    unfold fetch_pages_of total_pages_of PER_PAGE MAX_PAGES
    omega
  refine ⟨rfl, rfl, fun n => ?_, rfl, ?_, ?_⟩
  · unfold total_pages_of PER_PAGE
    omega
  · unfold fetch_pages_of MAX_PAGES
    exact Nat.min_le_right _ 4
  · intro fetch season emg code label category gender done store soup hkey h1 hc hok
    have h0 : parse_total_count soup ≠ 0 := by rw [hc]; omega
    have hloop := fetchPagesLoop_all_ok fetch
      (mkRow season emg code label category gender)
      (List.range' 2 (fetch_pages_of T - 1))
      (fun n hn => hok n (List.mem_range'_1.mp hn).1
        (by have := (List.mem_range'_1.mp hn).2; omega))
    rw [scrape_combo_run fetch season emg code label category gender done store soup
      hkey h1 h0, hc, hloop]
    have hrange : (1 : Nat) :: List.range' 2 (fetch_pages_of T - 1) =
        List.range' 1 (fetch_pages_of T) := by
      have h3 := List.range'_succ 1 (fetch_pages_of T - 1) 1
      rw [show fetch_pages_of T - 1 + 1 = fetch_pages_of T by omega] at h3
      exact h3.symm
    constructor
    · exact hrange
    · show ((1 : Nat) :: List.range' 2 (fetch_pages_of T - 1)).length = fetch_pages_of T
      rw [hrange, List.length_range']

theorem pages_ceil_and_cap_witness :
    0 < 30 ∧
      (scrape_combo (fun _ => Except.ok ⟨some "30 Results", []⟩)
          "s" "g" "H_X" "l" "HYROX" "M" [] []).requests =
        List.range' 1 (fetch_pages_of 30) :=
  ⟨by decide,
   ((pages_ceil_and_cap 30 (by decide)).2.2.2.2.2
      (fun _ => Except.ok ⟨some "30 Results", []⟩) "s" "g" "H_X" "l" "HYROX" "M" [] []
      ⟨some "30 Results", []⟩ (by decide) rfl (by decide)
      (fun n _ _ => ⟨⟨some "30 Results", []⟩, rfl⟩)).1⟩

/-- C4: when the first failing fetch of this key is some page j after the
first, `scrape_combo` requests exactly pages 1..j and stops there, the
store keeps everything it had plus the rows of the successfully fetched
pages 1..j-1, and the key is added to the done-set despite the early
stop. -/
theorem scrape_combo_stop_on_page_error (fetch : Nat → Except String Soup)
    (season emg code label category gender : String)
    (done : List CollectionKey) (store : List Row) (soup : Soup) (j : Nat) (e : String)
    (hkey : (code, gender) ∉ done) (h1 : fetch 1 = Except.ok soup)
    (h0 : parse_total_count soup ≠ 0)
    (hj2 : 2 ≤ j) (hjf : j ≤ fetch_pages_of (parse_total_count soup))
    (hje : fetch j = Except.error e)
    (hok : ∀ n, 2 ≤ n → n < j → ∃ s, fetch n = Except.ok s) :
    scrape_combo fetch season emg code label category gender done store =
      ⟨(code, gender) :: done,
       store ++ pageRows fetch (mkRow season emg code label category gender)
         (List.range' 1 (j - 1)),
       List.range' 1 j⟩ := by
  have hsplit : List.range' 2 (fetch_pages_of (parse_total_count soup) - 1) =
      List.range' 2 (j - 2) ++ j ::
        List.range' (j + 1) (fetch_pages_of (parse_total_count soup) - j) := by
    have e2 : List.range' j (fetch_pages_of (parse_total_count soup) - j + 1) 1 =
        j :: List.range' (j + 1) (fetch_pages_of (parse_total_count soup) - j) := by
      have := List.range'_succ j (fetch_pages_of (parse_total_count soup) - j) 1
      simpa using this
    have e1 := List.range'_append_1 2 (j - 2)
      (fetch_pages_of (parse_total_count soup) - j + 1)
    rw [show 2 + (j - 2) = j by omega] at e1
    rw [show fetch_pages_of (parse_total_count soup) - j + 1 + (j - 2) =
      fetch_pages_of (parse_total_count soup) - 1 by omega] at e1
    rw [← e1, e2]
  have hbreak := fetchPagesLoop_break fetch
    (mkRow season emg code label category gender)
    (List.range' 2 (j - 2)) j
    (List.range' (j + 1) (fetch_pages_of (parse_total_count soup) - j)) e
    (fun n hn => hok n (List.mem_range'_1.mp hn).1
      (by have := (List.mem_range'_1.mp hn).2; omega))
    hje
  rw [scrape_combo_run fetch season emg code label category gender done store soup
    hkey h1 h0, hsplit, hbreak]
  have hstore : pageRows fetch (mkRow season emg code label category gender)
      (List.range' 1 (j - 1)) =
      (parse_result_rows soup.result_rows).map
          (mkRow season emg code label category gender) ++
        pageRows fetch (mkRow season emg code label category gender)
          (List.range' 2 (j - 2)) := by
    have hr : List.range' 1 (j - 1) = 1 :: List.range' 2 (j - 2) := by
      have h3 := List.range'_succ 1 (j - 2) 1
      rw [show j - 2 + 1 = j - 1 by omega] at h3
      simpa using h3
    rw [hr]
    simp only [pageRows, h1]
  have hreq : (1 : Nat) :: (List.range' 2 (j - 2) ++ [j]) = List.range' 1 j := by
    have h2 := List.range'_1_concat 2 (j - 2)
    rw [show 2 + (j - 2) = j by omega] at h2
    rw [← h2, show j - 2 + 1 = j - 1 by omega]
    have h3 := List.range'_succ 1 (j - 1) 1
    rw [show j - 1 + 1 = j by omega] at h3
    simpa using h3.symm
  simp only [ComboResult.mk.injEq]
  exact ⟨trivial, by rw [hstore, List.append_assoc], hreq⟩

theorem scrape_combo_stop_on_page_error_witness :
    (2 : Nat) ≤ 3 ∧
      scrape_combo (fun n => if n ≤ 2 then Except.ok ⟨some "100 Results", []⟩
          else Except.error "boom") "s" "g" "H_X" "l" "HYROX" "M" [] [] =
        ⟨[("H_X", "M")],
         [] ++ pageRows (fun n => if n ≤ 2 then Except.ok ⟨some "100 Results", []⟩
             else Except.error "boom") (mkRow "s" "g" "H_X" "l" "HYROX" "M")
           (List.range' 1 (3 - 1)),
         List.range' 1 3⟩ :=
  ⟨by decide,
   scrape_combo_stop_on_page_error
     (fun n => if n ≤ 2 then Except.ok ⟨some "100 Results", []⟩ else Except.error "boom")
     "s" "g" "H_X" "l" "HYROX" "M" [] [] ⟨some "100 Results", []⟩ 3 "boom"
     (by decide) rfl (by decide) (by decide) (by decide) rfl
     (fun n h2 h3 => ⟨⟨some "100 Results", []⟩, by
        have hn : n = 2 := by omega
        subst hn
        rfl⟩)⟩
